import Mathlib

/-!
Shallow embedding of the ATM cash dispenser from `src/atm-cor-lld/index.ts`
(chain-of-responsibility note dispenser).

Modelling decisions:
* JS numbers are modelled as `Int` (all amounts and counts in the program are
  integers; `Math.floor(amount / noteValue)` is floor division, `Int.fdiv`).
  The embedding is meaningful for positive `noteValue` (in JS, division by 0
  yields `Infinity`; all handlers in the program carry positive note values).
* A handler chain (`INoteHandler` objects linked by `nextHandler`) is a
  `List Handler`; `this.nextHandler` exists exactly when the tail is nonempty.
* `notesDispensed` (a JS object keyed by note value) is an association list
  `List (Int × Int)`; the spread merge `{...a, ...b}` (keys of `b` override
  keys of `a`) is `mergeNotes`; the read `notes[v] || 0` is `lookupD`.
* `dispense` mutates `this.noteCount`; the embedding threads the state
  explicitly: `dispenseChain` returns the response together with the chain
  state after the call.
-/

/-- Response of a dispense call: `success` flag plus the map from note value
to the count of notes of that value dispensed (`IDispenseResponse`). -/
structure DispenseResponse where
  success : Bool
  notesDispensed : List (Int × Int)
  deriving Repr, DecidableEq

/-- A denomination handler: its note value and its current stock
(the `noteValue` and `noteCount` fields of `INoteHandler`). -/
structure Handler where
  noteValue : Int
  noteCount : Int
  deriving Repr, DecidableEq

/-- Read `notes[v] || 0`: the count recorded for note value `v`, `0` when the
key is absent. -/
def lookupD (notes : List (Int × Int)) (v : Int) : Int :=
  match notes with
  | [] => 0
  | (w, c) :: rest => if w = v then c else lookupD rest v

/-- The JS object spread `{...a, ...b}`: all entries of both, entries of `b`
overriding entries of `a` with the same key. -/
def mergeNotes (a b : List (Int × Int)) : List (Int × Int) :=
  (a.filter fun p => decide (∀ q ∈ b, q.1 ≠ p.1)) ++ b

/-- The note-value settlement block of `INoteHandler.dispense`
(lines 58-73 of the source): given the handler, whether `this.nextHandler`
exists, and the requested amount, returns
`(response.notesDispensed so far, new noteCount, remainingAmount)`.

* `requiredNotes < noteCount`: allocate `requiredNotes` notes;
* `requiredNotes > noteCount` and a next handler exists: allocate the whole
  stock and zero it;
* otherwise: fall through with nothing allocated. -/
def settle (h : Handler) (hasNext : Bool) (amount : Int) :
    List (Int × Int) × Int × Int :=
  let requiredNotes := Int.fdiv amount h.noteValue
  if requiredNotes < h.noteCount then
    ([(h.noteValue, requiredNotes)], h.noteCount - requiredNotes,
      amount - h.noteValue * requiredNotes)
  else if h.noteCount < requiredNotes ∧ hasNext = true then
    ([(h.noteValue, h.noteCount)], 0, amount - h.noteValue * h.noteCount)
  else
    ([], h.noteCount, amount)

/-- `INoteHandler.dispense` on a whole chain: the head handler settles its
denomination, then (lines 75-92 of the source):
* remaining amount `0`: success with the head's allocation;
* remaining amount positive and a next handler exists: recurse; on success
  merge the deeper allocation (spread, deeper keys override) into this one;
* on failure this frame restores `notesDispensed[noteValue] || 0` to its
  stock (each deeper frame has already restored its own).
Returns the response and the chain state after the call. -/
def dispenseChain : List Handler → Int → DispenseResponse × List Handler
  | [], _amount => (⟨false, []⟩, [])
  | h :: rest, amount =>
    let s := settle h (!rest.isEmpty) amount
    if s.2.2 = 0 then
      (⟨true, s.1⟩, ⟨h.noteValue, s.2.1⟩ :: rest)
    else if 0 < s.2.2 ∧ rest ≠ [] then
      let nr := dispenseChain rest s.2.2
      if nr.1.success = true then
        (⟨true, mergeNotes s.1 nr.1.notesDispensed⟩,
          ⟨h.noteValue, s.2.1⟩ :: nr.2)
      else
        (⟨false, s.1⟩,
          ⟨h.noteValue, s.2.1 + lookupD s.1 h.noteValue⟩ :: nr.2)
    else
      (⟨false, s.1⟩,
        ⟨h.noteValue, s.2.1 + lookupD s.1 h.noteValue⟩ :: rest)

/-- `MainHandler.dispense`: the entry-point gate (lines 29-39 of the source).
Rejects `amount <= 0 || amount < 100` with an empty response without touching
the chain; otherwise delegates to the chain head, and returns its response
when it succeeded, else `{ success: false, notesDispensed: {} }`. -/
def mainDispense (chain : List Handler) (amount : Int) :
    DispenseResponse × List Handler :=
  if amount ≤ 0 ∨ amount < 100 then
    (⟨false, []⟩, chain)
  else
    let r := dispenseChain chain amount
    (if r.1.success = true then r.1 else ⟨false, []⟩, r.2)

/-- Weighted sum of an allocation: sum over entries of value times count. -/
def weightedSum (notes : List (Int × Int)) : Int :=
  (notes.map fun p => p.1 * p.2).sum

/-- Total monetary value of the stock held by a chain. -/
def totalStock (chain : List Handler) : Int :=
  (chain.map fun h => h.noteValue * h.noteCount).sum

/-- Every handler of the chain holds a non-negative stock. -/
def allCountsNonneg (chain : List Handler) : Bool :=
  chain.all fun h => decide (0 ≤ h.noteCount)

/-- For every handler of the chain, the allocation records at most the
handler's stock for the handler's denomination. -/
def dispensedWithinStock (chain : List Handler) (notes : List (Int × Int)) :
    Bool :=
  chain.all fun h => decide (lookupD notes h.noteValue ≤ h.noteCount)

/-- Stock state predicted on success: each handler's count decreased by the
count recorded for its denomination in the allocation. -/
def stockAfter (notes : List (Int × Int)) (chain : List Handler) :
    List Handler :=
  chain.map fun h => ⟨h.noteValue, h.noteCount - lookupD notes h.noteValue⟩

/-! Lemmas about `lookupD` and `mergeNotes`. -/

theorem lookupD_eq_zero {notes : List (Int × Int)} {v : Int}
    (hv : ∀ q ∈ notes, q.1 ≠ v) : lookupD notes v = 0 := by
  induction notes with
  | nil => rfl
  | cons p rest ih =>
    rw [lookupD]
    rw [if_neg (hv p (List.mem_cons_self p rest))]
    exact ih fun q hq => hv q (List.mem_cons_of_mem p hq)

theorem lookupD_append_of_forall_ne {l₁ l₂ : List (Int × Int)} {v : Int}
    (hv : ∀ q ∈ l₁, q.1 ≠ v) : lookupD (l₁ ++ l₂) v = lookupD l₂ v := by
  induction l₁ with
  | nil => rfl
  | cons p rest ih =>
    rw [List.cons_append, lookupD]
    rw [if_neg (hv p (List.mem_cons_self p rest))]
    exact ih fun q hq => hv q (List.mem_cons_of_mem p hq)

theorem mergeNotes_lookup_left {a b : List (Int × Int)} {v : Int}
    (hb : ∀ q ∈ b, q.1 ≠ v) : lookupD (mergeNotes a b) v = lookupD a v := by
  induction a with
  | nil =>
    simp only [mergeNotes, List.filter_nil, List.nil_append]
    exact lookupD_eq_zero hb
  | cons p rest ih =>
    rw [mergeNotes, List.filter_cons]
    by_cases hp : ∀ q ∈ b, q.1 ≠ p.1
    · rw [if_pos (by simpa using hp), List.cons_append, lookupD, lookupD]
      by_cases hpv : p.1 = v
      · rw [if_pos hpv, if_pos hpv]
      · rw [if_neg hpv, if_neg hpv]
        exact ih
    · rw [if_neg (by simpa using hp)]
      have hpv : p.1 ≠ v := by
        intro he
        exact hp fun q hq => he ▸ hb q hq
      rw [lookupD, if_neg hpv]
      exact ih

theorem mergeNotes_lookup_right {a b : List (Int × Int)} {v : Int}
    (ha : ∀ q ∈ a, q.1 ≠ v) : lookupD (mergeNotes a b) v = lookupD b v := by
  rw [mergeNotes]
  refine lookupD_append_of_forall_ne fun q hq => ?_
  exact ha q (List.mem_of_mem_filter hq)

theorem mergeNotes_eq_append {a b : List (Int × Int)}
    (hd : ∀ p ∈ a, ∀ q ∈ b, q.1 ≠ p.1) : mergeNotes a b = a ++ b := by
  rw [mergeNotes]
  congr 1
  refine List.filter_eq_self.2 fun p hp => ?_
  simpa using hd p hp

theorem mem_of_mem_mergeNotes {a b : List (Int × Int)} {p : Int × Int}
    (hp : p ∈ mergeNotes a b) : p ∈ a ∨ p ∈ b := by
  rcases List.mem_append.1 hp with h | h
  · exact Or.inl (List.mem_of_mem_filter h)
  · exact Or.inr h

theorem weightedSum_append (a b : List (Int × Int)) :
    weightedSum (a ++ b) = weightedSum a + weightedSum b := by
  simp [weightedSum]

/-! Lemmas about one handler's settlement step. -/

theorem settle_sum (h : Handler) (hasNext : Bool) (amount : Int) :
    weightedSum (settle h hasNext amount).1 + (settle h hasNext amount).2.2 =
      amount := by
  simp only [settle]
  split_ifs <;> simp [weightedSum, mul_comm]

theorem settle_restore (h : Handler) (hasNext : Bool) (amount : Int) :
    (settle h hasNext amount).2.1 +
      lookupD (settle h hasNext amount).1 h.noteValue = h.noteCount := by
  simp only [settle]
  split_ifs <;> simp [lookupD]

theorem settle_count_eq (h : Handler) (hasNext : Bool) (amount : Int) :
    (settle h hasNext amount).2.1 =
      h.noteCount - lookupD (settle h hasNext amount).1 h.noteValue := by
  have := settle_restore h hasNext amount
  omega

theorem settle_keys (h : Handler) (hasNext : Bool) (amount : Int) :
    ∀ p ∈ (settle h hasNext amount).1, p.1 = h.noteValue := by
  simp only [settle]
  split_ifs <;> simp

theorem settle_count_nonneg (h : Handler) (hasNext : Bool) (amount : Int)
    (hc : 0 ≤ h.noteCount) : 0 ≤ (settle h hasNext amount).2.1 := by
  simp only [settle]
  split_ifs with h1 h2 <;> simp <;> omega

theorem settle_lookup_le (h : Handler) (hasNext : Bool) (amount : Int)
    (hc : 0 ≤ h.noteCount) :
    lookupD (settle h hasNext amount).1 h.noteValue ≤ h.noteCount := by
  simp only [settle]
  split_ifs with h1 h2 <;> simp [lookupD] <;> omega

theorem settle_ws_dvd (h : Handler) (hasNext : Bool) (amount : Int) {d : Int}
    (hd : d ∣ h.noteValue) : d ∣ weightedSum (settle h hasNext amount).1 := by
  simp only [settle]
  split_ifs <;> simp [weightedSum] <;> exact hd.mul_right _

/-! Lemmas about `stockAfter`. -/

theorem stockAfter_eq_self {notes : List (Int × Int)} {chain : List Handler}
    (hz : ∀ x ∈ chain, lookupD notes x.noteValue = 0) :
    stockAfter notes chain = chain := by
  induction chain with
  | nil => rfl
  | cons x rest ih =>
    rw [stockAfter, List.map_cons]
    rw [hz x (List.mem_cons_self x rest), sub_zero]
    exact congrArg (List.cons x) (ih fun y hy => hz y (List.mem_cons_of_mem x hy))

theorem stockAfter_congr {n₁ n₂ : List (Int × Int)} {chain : List Handler}
    (he : ∀ x ∈ chain, lookupD n₁ x.noteValue = lookupD n₂ x.noteValue) :
    stockAfter n₁ chain = stockAfter n₂ chain := by
  induction chain with
  | nil => rfl
  | cons x rest ih =>
    rw [stockAfter, stockAfter, List.map_cons, List.map_cons]
    rw [he x (List.mem_cons_self x rest)]
    exact congrArg _ (ih fun y hy => he y (List.mem_cons_of_mem x hy))

theorem stockAfter_cons (notes : List (Int × Int)) (h : Handler)
    (rest : List Handler) :
    stockAfter notes (h :: rest) =
      ⟨h.noteValue, h.noteCount - lookupD notes h.noteValue⟩ ::
        stockAfter notes rest := rfl

/-! Structural lemmas about `dispenseChain`, proved by induction on the chain.
The induction follows the recursive descent of `INoteHandler.dispense`. -/

/-- On failure, the chain state after the call is the chain state before it:
each frame restores its own provisional allocation (line 89 of the source). -/
theorem dispenseChain_fail_state (chain : List Handler) :
    ∀ amount : Int, (dispenseChain chain amount).1.success = false →
      (dispenseChain chain amount).2 = chain := by
  induction chain with
  | nil => intro amount _; rfl
  | cons h rest ih =>
    intro amount hf
    simp only [dispenseChain] at hf ⊢
    split_ifs at hf ⊢ with h1 h2 h3
    · have hr := ih _ (by simpa using h3)
      have hc := settle_restore h (!rest.isEmpty) amount
      rw [hc, hr]
    · have hc := settle_restore h (!rest.isEmpty) amount
      rw [hc]

/-- Every key of the returned allocation is a note value of the chain. -/
theorem dispenseChain_keys (chain : List Handler) :
    ∀ amount : Int, ∀ p ∈ (dispenseChain chain amount).1.notesDispensed,
      p.1 ∈ chain.map Handler.noteValue := by
  induction chain with
  | nil => intro amount p hp; simp [dispenseChain] at hp
  | cons h rest ih =>
    intro amount p hp
    simp only [dispenseChain] at hp
    rw [List.map_cons]
    split_ifs at hp with h1 h2 h3
    · exact List.mem_cons.2 (Or.inl (settle_keys h (!rest.isEmpty) amount p hp))
    · rcases mem_of_mem_mergeNotes hp with hL | hR
      · exact List.mem_cons.2
          (Or.inl (settle_keys h (!rest.isEmpty) amount p hL))
      · exact List.mem_cons_of_mem _ (ih _ p hR)
    · exact List.mem_cons.2 (Or.inl (settle_keys h (!rest.isEmpty) amount p hp))
    · exact List.mem_cons.2 (Or.inl (settle_keys h (!rest.isEmpty) amount p hp))

/-- On success the weighted sum of the allocation is the requested amount:
each frame contributes exactly the value it removed from the remainder, and
with pairwise distinct note values the spread merge loses no entry. -/
theorem dispenseChain_success_sum (chain : List Handler) :
    ∀ amount : Int, (chain.map Handler.noteValue).Nodup →
      (dispenseChain chain amount).1.success = true →
      weightedSum (dispenseChain chain amount).1.notesDispensed = amount := by
  induction chain with
  | nil => intro amount _ hs; simp [dispenseChain] at hs
  | cons h rest ih =>
    intro amount hnd hs
    have hsum := settle_sum h (!rest.isEmpty) amount
    simp only [dispenseChain] at hs ⊢
    split_ifs at hs ⊢ with h1 h2 h3
    · show weightedSum (settle h (!rest.isEmpty) amount).1 = amount
      omega
    · show weightedSum (mergeNotes (settle h (!rest.isEmpty) amount).1
        (dispenseChain rest
          (settle h (!rest.isEmpty) amount).2.2).1.notesDispensed) = amount
      have hvna : h.noteValue ∉ rest.map Handler.noteValue :=
        (List.nodup_cons.1 hnd).1
      have hdisj : ∀ p ∈ (settle h (!rest.isEmpty) amount).1,
          ∀ q ∈ (dispenseChain rest
            (settle h (!rest.isEmpty) amount).2.2).1.notesDispensed,
          q.1 ≠ p.1 := by
        intro p hp q hq he
        rw [settle_keys h (!rest.isEmpty) amount p hp] at he
        exact hvna (he ▸ dispenseChain_keys rest _ q hq)
      rw [mergeNotes_eq_append hdisj, weightedSum_append]
      have hrec := ih _ (List.nodup_cons.1 hnd).2 h3
      omega

/-- On success the chain state after the call is the chain state before it
with each handler's stock decreased by the count recorded in the returned
allocation for its denomination (distinct note values assumed in the chain,
as in the program's configuration). -/
theorem dispenseChain_success_state (chain : List Handler) :
    ∀ amount : Int, (chain.map Handler.noteValue).Nodup →
      (dispenseChain chain amount).1.success = true →
      (dispenseChain chain amount).2 =
        stockAfter (dispenseChain chain amount).1.notesDispensed chain := by
  induction chain with
  | nil => intro amount _ _; rfl
  | cons h rest ih =>
    intro amount hnd hs
    have hvna : h.noteValue ∉ rest.map Handler.noteValue :=
      (List.nodup_cons.1 hnd).1
    have hxv : ∀ x ∈ rest, x.noteValue ≠ h.noteValue := by
      intro x hx he
      exact hvna (he ▸ List.mem_map_of_mem Handler.noteValue hx)
    have hsk := settle_keys h (!rest.isEmpty) amount
    have hskx : ∀ x ∈ rest, ∀ q ∈ (settle h (!rest.isEmpty) amount).1,
        q.1 ≠ x.noteValue := by
      intro x hx q hq he
      exact hxv x hx (he ▸ hsk q hq)
    simp only [dispenseChain] at hs ⊢
    split_ifs at hs ⊢ with h1 h2 h3
    · have hself : stockAfter (settle h (!rest.isEmpty) amount).1 rest = rest :=
        stockAfter_eq_self fun x hx => lookupD_eq_zero (hskx x hx)
      show (⟨h.noteValue, (settle h (!rest.isEmpty) amount).2.1⟩ :: rest :
          List Handler) =
        stockAfter (settle h (!rest.isEmpty) amount).1 (h :: rest)
      rw [stockAfter_cons, ← settle_count_eq h (!rest.isEmpty) amount, hself]
    · have hqb : ∀ q ∈ (dispenseChain rest
          (settle h (!rest.isEmpty) amount).2.2).1.notesDispensed,
          q.1 ≠ h.noteValue := by
        intro q hq he
        exact hvna (he ▸ dispenseChain_keys rest _ q hq)
      have hrec := ih _ (List.nodup_cons.1 hnd).2 h3
      have hcon : stockAfter (mergeNotes (settle h (!rest.isEmpty) amount).1
          (dispenseChain rest
            (settle h (!rest.isEmpty) amount).2.2).1.notesDispensed) rest =
          stockAfter (dispenseChain rest
            (settle h (!rest.isEmpty) amount).2.2).1.notesDispensed rest :=
        stockAfter_congr fun x hx => mergeNotes_lookup_right (hskx x hx)
      show (⟨h.noteValue, (settle h (!rest.isEmpty) amount).2.1⟩ ::
          (dispenseChain rest (settle h (!rest.isEmpty) amount).2.2).2 :
          List Handler) =
        stockAfter (mergeNotes (settle h (!rest.isEmpty) amount).1
          (dispenseChain rest
            (settle h (!rest.isEmpty) amount).2.2).1.notesDispensed) (h :: rest)
      rw [stockAfter_cons, mergeNotes_lookup_left hqb,
        ← settle_count_eq h (!rest.isEmpty) amount, hcon, ← hrec]

/-- Stock counts stay non-negative through any dispense call. -/
theorem dispenseChain_counts_nonneg (chain : List Handler) :
    ∀ amount : Int, (∀ x ∈ chain, 0 ≤ x.noteCount) →
      ∀ x ∈ (dispenseChain chain amount).2, 0 ≤ x.noteCount := by
  induction chain with
  | nil => intro amount _ x hx; simp [dispenseChain] at hx
  | cons h rest ih =>
    intro amount hc x hx
    have hch : 0 ≤ h.noteCount := hc h (List.mem_cons_self h rest)
    have hcr : ∀ y ∈ rest, 0 ≤ y.noteCount :=
      fun y hy => hc y (List.mem_cons_of_mem h hy)
    simp only [dispenseChain] at hx
    split_ifs at hx with h1 h2 h3
    · rcases List.mem_cons.1 hx with he | hm
      · rw [he]
        exact settle_count_nonneg h (!rest.isEmpty) amount hch
      · exact hcr x hm
    · rcases List.mem_cons.1 hx with he | hm
      · rw [he]
        exact settle_count_nonneg h (!rest.isEmpty) amount hch
      · exact ih _ hcr x hm
    · rcases List.mem_cons.1 hx with he | hm
      · rw [he]
        show 0 ≤ (settle h (!rest.isEmpty) amount).2.1 +
          lookupD (settle h (!rest.isEmpty) amount).1 h.noteValue
        rw [settle_restore h (!rest.isEmpty) amount]
        exact hch
      · exact ih _ hcr x hm
    · rcases List.mem_cons.1 hx with he | hm
      · rw [he]
        show 0 ≤ (settle h (!rest.isEmpty) amount).2.1 +
          lookupD (settle h (!rest.isEmpty) amount).1 h.noteValue
        rw [settle_restore h (!rest.isEmpty) amount]
        exact hch
      · exact hcr x hm

/-- The returned allocation never records more notes of a handler's
denomination than the handler held before the call. -/
theorem dispenseChain_within_stock (chain : List Handler) :
    ∀ amount : Int, (chain.map Handler.noteValue).Nodup →
      (∀ x ∈ chain, 0 ≤ x.noteCount) →
      ∀ x ∈ chain,
        lookupD (dispenseChain chain amount).1.notesDispensed x.noteValue ≤
          x.noteCount := by
  induction chain with
  | nil => intro amount _ _ x hx; simp at hx
  | cons h rest ih =>
    intro amount hnd hc x hx
    have hch : 0 ≤ h.noteCount := hc h (List.mem_cons_self h rest)
    have hcr : ∀ y ∈ rest, 0 ≤ y.noteCount :=
      fun y hy => hc y (List.mem_cons_of_mem h hy)
    have hvna : h.noteValue ∉ rest.map Handler.noteValue :=
      (List.nodup_cons.1 hnd).1
    have hxv : ∀ y ∈ rest, y.noteValue ≠ h.noteValue := by
      intro y hy he
      exact hvna (he ▸ List.mem_map_of_mem Handler.noteValue hy)
    have hskx : ∀ y ∈ rest, ∀ q ∈ (settle h (!rest.isEmpty) amount).1,
        q.1 ≠ y.noteValue := by
      intro y hy q hq he
      exact hxv y hy (he ▸ settle_keys h (!rest.isEmpty) amount q hq)
    simp only [dispenseChain]
    split_ifs with h1 h2 h3
    · rcases List.mem_cons.1 hx with he | hm
      · rw [he]
        exact settle_lookup_le h (!rest.isEmpty) amount hch
      · show lookupD (settle h (!rest.isEmpty) amount).1 x.noteValue ≤
          x.noteCount
        rw [lookupD_eq_zero (hskx x hm)]
        exact hcr x hm
    · have hqb : ∀ q ∈ (dispenseChain rest
          (settle h (!rest.isEmpty) amount).2.2).1.notesDispensed,
          q.1 ≠ h.noteValue := by
        intro q hq he
        exact hvna (he ▸ dispenseChain_keys rest _ q hq)
      rcases List.mem_cons.1 hx with he | hm
      · rw [he]
        show lookupD (mergeNotes (settle h (!rest.isEmpty) amount).1
            (dispenseChain rest
              (settle h (!rest.isEmpty) amount).2.2).1.notesDispensed)
            h.noteValue ≤ h.noteCount
        rw [mergeNotes_lookup_left hqb]
        exact settle_lookup_le h (!rest.isEmpty) amount hch
      · show lookupD (mergeNotes (settle h (!rest.isEmpty) amount).1
            (dispenseChain rest
              (settle h (!rest.isEmpty) amount).2.2).1.notesDispensed)
            x.noteValue ≤ x.noteCount
        rw [mergeNotes_lookup_right (hskx x hm)]
        exact ih _ (List.nodup_cons.1 hnd).2 hcr x hm
    · rcases List.mem_cons.1 hx with he | hm
      · rw [he]
        exact settle_lookup_le h (!rest.isEmpty) amount hch
      · show lookupD (settle h (!rest.isEmpty) amount).1 x.noteValue ≤
          x.noteCount
        rw [lookupD_eq_zero (hskx x hm)]
        exact hcr x hm
    · rcases List.mem_cons.1 hx with he | hm
      · rw [he]
        exact settle_lookup_le h (!rest.isEmpty) amount hch
      · show lookupD (settle h (!rest.isEmpty) amount).1 x.noteValue ≤
          x.noteCount
        rw [lookupD_eq_zero (hskx x hm)]
        exact hcr x hm

/-- A successful dispense can only pay an amount divisible by any common
divisor of all note values of the chain. -/
theorem dispenseChain_success_dvd (d : Int) (chain : List Handler) :
    ∀ amount : Int, (∀ x ∈ chain, d ∣ x.noteValue) →
      (dispenseChain chain amount).1.success = true → d ∣ amount := by
  induction chain with
  | nil => intro amount _ hs; simp [dispenseChain] at hs
  | cons h rest ih =>
    intro amount hd hs
    have hws : d ∣ weightedSum (settle h (!rest.isEmpty) amount).1 :=
      settle_ws_dvd h (!rest.isEmpty) amount (hd h (List.mem_cons_self h rest))
    have hsum := settle_sum h (!rest.isEmpty) amount
    simp only [dispenseChain] at hs
    split_ifs at hs with h1 h2 h3
    · have ha : amount = weightedSum (settle h (!rest.isEmpty) amount).1 := by
        omega
      rw [ha]
      exact hws
    · have hrec : d ∣ (settle h (!rest.isEmpty) amount).2.2 :=
        ih _ (fun x hx => hd x (List.mem_cons_of_mem h hx)) h3
      have ha : amount = weightedSum (settle h (!rest.isEmpty) amount).1 +
          (settle h (!rest.isEmpty) amount).2.2 := hsum.symm
      rw [ha]
      exact dvd_add hws hrec

/-- The chain configured by the program's example usage:
1000s, 500s and 100s, ten notes each, descending. -/
def sampleChain : List Handler := [⟨1000, 10⟩, ⟨500, 10⟩, ⟨100, 10⟩]

/-- Sanity check against the program's sample run: dispensing 2700 from the
freshly configured chain returns two 1000s, one 500 and two 100s. -/
theorem sampleRun_2700 :
    mainDispense sampleChain 2700 =
      (⟨true, [(1000, 2), (500, 1), (100, 2)]⟩,
        [⟨1000, 8⟩, ⟨500, 9⟩, ⟨100, 8⟩]) := by decide

/-- Sanity check against the program's sample run: after 2700 and 7000 have
been dispensed the stock is one 1000, nine 500s and eight 100s, and the
sample request for 10000 fails. -/
theorem sampleRun_10000_fails :
    (mainDispense [⟨1000, 1⟩, ⟨500, 9⟩, ⟨100, 8⟩] 10000).1.success = false := by
  decide

/-! The claims. -/

/-- C1: for every chain of denomination handlers with distinct positive note
values and every requested amount, if a top-level dispense call returns
`success = true` then the sum over all entries of the returned
`notesDispensed` mapping of note value times count equals the requested
amount exactly. -/
theorem C1_success_weighted_sum (chain : List Handler) (amount : Int)
    (hpos : ∀ x ∈ chain, 0 < x.noteValue)
    (hnd : (chain.map Handler.noteValue).Nodup)
    (hs : (mainDispense chain amount).1.success = true) :
    weightedSum (mainDispense chain amount).1.notesDispensed = amount := by
  simp only [mainDispense] at hs ⊢
  split_ifs at hs ⊢ with hg hcs
  exact dispenseChain_success_sum chain amount hnd hcs

theorem C1_witness :
    (∀ x ∈ sampleChain, 0 < x.noteValue) ∧
      (sampleChain.map Handler.noteValue).Nodup ∧
      (mainDispense sampleChain 2700).1.success = true ∧
      weightedSum (mainDispense sampleChain 2700).1.notesDispensed = 2700 :=
  ⟨by decide, by decide, by decide,
    C1_success_weighted_sum sampleChain 2700 (by decide) (by decide)
      (by decide)⟩

/-- C2: for every chain and every requested amount, if a top-level dispense
call returns `success = false`, the chain state after the call equals the
chain state before it (every handler's `noteCount` is unchanged), and a
second failed call with the same amount leaves the stock identical to the
single failed call. -/
theorem C2_failed_dispense_atomic (chain : List Handler) (amount : Int)
    (hf : (mainDispense chain amount).1.success = false) :
    (mainDispense chain amount).2 = chain ∧
      (mainDispense (mainDispense chain amount).2 amount).2 =
        (mainDispense chain amount).2 := by
  have h1 : (mainDispense chain amount).2 = chain := by
    simp only [mainDispense] at hf ⊢
    split_ifs at hf ⊢ with hg hcs
    · rfl
    · have hcf : (dispenseChain chain amount).1.success = false := hf
      rw [hcf] at hcs
      exact absurd hcs (by simp)
    · exact dispenseChain_fail_state chain amount (by simpa using hcs)
  refine ⟨h1, ?_⟩
  rw [h1]
  exact h1

theorem C2_witness :
    (mainDispense [(⟨100, 1⟩ : Handler)] 100).1.success = false ∧
      (mainDispense [(⟨100, 1⟩ : Handler)] 100).2 = [⟨100, 1⟩] ∧
      (mainDispense (mainDispense [(⟨100, 1⟩ : Handler)] 100).2 100).2 =
        (mainDispense [(⟨100, 1⟩ : Handler)] 100).2 :=
  ⟨by decide, (C2_failed_dispense_atomic [⟨100, 1⟩] 100 (by decide)).1,
    (C2_failed_dispense_atomic [⟨100, 1⟩] 100 (by decide)).2⟩

/-- C5: for every requested amount with `amount <= 0` or `amount < 100`, the
entry point's dispense returns `{ success: false, notesDispensed: {} }` with
the chain state untouched. -/
theorem C5_entry_gate (chain : List Handler) (amount : Int)
    (hlt : amount ≤ 0 ∨ amount < 100) :
    mainDispense chain amount = (⟨false, []⟩, chain) := by
  simp only [mainDispense, if_pos hlt]

theorem C5_witness :
    ((50 : Int) ≤ 0 ∨ (50 : Int) < 100) ∧
      mainDispense sampleChain 50 = (⟨false, []⟩, sampleChain) :=
  ⟨by decide, C5_entry_gate sampleChain 50 (by decide)⟩

/-- C6 counterexample: the entry point does not pass the chain head's result
through verbatim for every gated amount. With one handler of value 100
holding 5 notes and a request of 150, the chain head's failed response still
records the provisionally allocated note (`{100: 1}`) while the entry point
replaces it by the empty mapping. -/
theorem C6_counterexample :
    (100 : Int) ≤ 150 ∧
      (dispenseChain [⟨100, 5⟩] 150).1 =
        ⟨false, [((100 : Int), (1 : Int))]⟩ ∧
      (mainDispense [⟨100, 5⟩] 150).1 = ⟨false, []⟩ ∧
      (mainDispense [⟨100, 5⟩] 150).1 ≠ (dispenseChain [⟨100, 5⟩] 150).1 := by
  decide

/-- C6 (amended): for every amount that passes the entry-point gate
(`amount >= 100`), the entry point passes the chain state and the success
flag through unchanged, and passes the whole result through verbatim
whenever the chain call succeeds; when the chain call fails, the
`notesDispensed` of the chain's response is discarded and replaced by the
empty mapping. -/
theorem C6_amended_passthrough (chain : List Handler) (amount : Int)
    (hge : (100 : Int) ≤ amount) :
    (mainDispense chain amount).2 = (dispenseChain chain amount).2 ∧
      (mainDispense chain amount).1.success =
        (dispenseChain chain amount).1.success ∧
      ((dispenseChain chain amount).1.success = true →
        mainDispense chain amount = dispenseChain chain amount) ∧
      ((dispenseChain chain amount).1.success = false →
        (mainDispense chain amount).1 = ⟨false, []⟩) := by
  have hg : ¬ (amount ≤ 0 ∨ amount < 100) := by omega
  have h2 : (mainDispense chain amount).2 = (dispenseChain chain amount).2 := by
    simp only [mainDispense, if_neg hg]
  have hsucc : (mainDispense chain amount).1 =
      (if (dispenseChain chain amount).1.success = true
        then (dispenseChain chain amount).1 else ⟨false, []⟩) := by
    simp only [mainDispense, if_neg hg]
  refine ⟨h2, ?_, ?_, ?_⟩
  · rw [hsucc]
    by_cases hcs : (dispenseChain chain amount).1.success = true
    · rw [if_pos hcs]
    · rw [if_neg hcs]
      have hcf : (dispenseChain chain amount).1.success = false := by
        simpa using hcs
      rw [hcf]
  · intro ht
    have h1 : (mainDispense chain amount).1 = (dispenseChain chain amount).1 := by
      rw [hsucc, if_pos ht]
    exact Prod.ext_iff.mpr ⟨h1, h2⟩
  · intro hf
    rw [hsucc, if_neg (by simp [hf])]

theorem C6_amended_witness :
    (100 : Int) ≤ 2700 ∧
      ((mainDispense sampleChain 2700).2 = (dispenseChain sampleChain 2700).2 ∧
        (mainDispense sampleChain 2700).1.success =
          (dispenseChain sampleChain 2700).1.success ∧
        ((dispenseChain sampleChain 2700).1.success = true →
          mainDispense sampleChain 2700 = dispenseChain sampleChain 2700) ∧
        ((dispenseChain sampleChain 2700).1.success = false →
          (mainDispense sampleChain 2700).1 = ⟨false, []⟩)) :=
  ⟨by decide, C6_amended_passthrough sampleChain 2700 (by decide)⟩

/-- C7 counterexample: a requested amount that is not a multiple of the
smallest denomination of the chain can still succeed when the denominations
are not mutually divisible. In the chain `[70x10, 30x10]` (smallest
denomination 30), requesting 100 succeeds (one 70 note and one 30 note)
although 100 is not a multiple of 30. -/
theorem C7_counterexample :
    List.map Handler.noteValue [⟨70, 10⟩, ⟨30, 10⟩] = [70, 30] ∧
      (30 : Int) < 70 ∧
      ¬ (30 : Int) ∣ 100 ∧
      (mainDispense [⟨70, 10⟩, ⟨30, 10⟩] 100).1.success = true := by
  decide

/-- C7 (amended): for every chain containing a denomination `d` that divides
every denomination of the chain (so `d` is the smallest denomination), every
stock configuration, and every requested amount that is not a multiple of
`d`, the top-level dispense call returns `success = false`. -/
theorem C7_amended_non_multiple_fails (chain : List Handler) (d amount : Int)
    (hmem : d ∈ chain.map Handler.noteValue)
    (hdvd : ∀ x ∈ chain, d ∣ x.noteValue)
    (hna : ¬ d ∣ amount) :
    (mainDispense chain amount).1.success = false := by
  simp only [mainDispense]
  split_ifs with hg hcs
  · rfl
  · exact absurd (dispenseChain_success_dvd d chain amount hdvd hcs) hna
  · rfl

theorem C7_amended_witness :
    ((100 : Int) ∈ sampleChain.map Handler.noteValue) ∧
      (∀ x ∈ sampleChain, (100 : Int) ∣ x.noteValue) ∧
      ¬ (100 : Int) ∣ 150 ∧
      (mainDispense sampleChain 150).1.success = false :=
  ⟨by decide, by decide, by decide,
    C7_amended_non_multiple_fails sampleChain 100 150 (by decide) (by decide)
      (by decide)⟩

/-- C3 counterexample: a descending chain whose denominations are multiples
of 100 can fail on an amount that is a multiple of 100, at least 100, and at
most the total stock value. With a single handler of value 100 holding one
note, requesting 100 fails: `requiredNotes = 1` equals `noteCount = 1`, so
the strict comparisons on lines 65 and 69 of the source both fall through
and nothing is allocated. -/
theorem C3_counterexample :
    totalStock [(⟨100, 1⟩ : Handler)] = 100 ∧
      (100 : Int) % 100 = 0 ∧
      (100 : Int) ≤ 100 ∧
      (mainDispense [⟨100, 1⟩] 100).1.success = false := by
  decide

/-- C3 (amended): success within total stock is not guaranteed in general;
for the spec's own example configuration (1000s, 500s and 100s, ten notes
each, descending) requesting 2700 — a multiple of 100 within the total stock
value — succeeds with the allocation `{1000: 2, 500: 1, 100: 2}`. -/
theorem C3_amended_sample_dispense :
    totalStock sampleChain = 16000 ∧
      mainDispense sampleChain 2700 =
        (⟨true, [(1000, 2), (500, 1), (100, 2)]⟩,
          [⟨1000, 8⟩, ⟨500, 9⟩, ⟨100, 8⟩]) := by
  decide

/-- C4 counterexample: a handler whose `requiredNotes` exactly equals its
`availableCount` does not allocate its stock even though a next handler
exists: with `noteValue = 100`, `noteCount = 2` and amount 200
(`requiredNotes = 2 >= 2`), the settlement allocates nothing and leaves the
stock and the amount untouched, instead of allocating both notes. -/
theorem C4_counterexample :
    Int.fdiv 200 100 = 2 ∧
      settle ⟨100, 2⟩ true 200 = ([], 2, 200) ∧
      settle ⟨100, 2⟩ true 200 ≠ ([((100 : Int), (2 : Int))], 0, 0) := by
  decide

/-- C4 (amended): for every handler dispense call, whenever
`requiredNotes = floor(amount / noteValue)` satisfies
`requiredNotes > availableCount` (strictly greater, not `>=`) and a next
handler exists, the handler allocates its entire remaining stock, reduces
the remaining amount by `availableCount * noteValue`, and sets its own stock
to zero. -/
theorem C4_amended_full_allocation (h : Handler) (amount : Int)
    (hgt : h.noteCount < Int.fdiv amount h.noteValue) :
    settle h true amount =
      ([(h.noteValue, h.noteCount)], 0,
        amount - h.noteValue * h.noteCount) := by
  simp only [settle]
  rw [if_neg (by omega), if_pos ⟨hgt, trivial⟩]

theorem C4_amended_witness :
    ((1 : Int) < Int.fdiv 300 100) ∧
      settle ⟨100, 1⟩ true 300 = ([((100 : Int), (1 : Int))], 0, 200) :=
  ⟨by decide, C4_amended_full_allocation ⟨100, 1⟩ 300 (by decide)⟩

/-- C8: for every chain of handlers with positive, distinct note values and
non-negative stocks, after any dispense call every handler's stock is still
non-negative, and the returned allocation never records more notes of a
handler's denomination than that handler held before the call. -/
theorem C8_stock_invariant (chain : List Handler) (amount : Int)
    (hpos : ∀ x ∈ chain, 0 < x.noteValue)
    (hc : ∀ x ∈ chain, 0 ≤ x.noteCount)
    (hnd : (chain.map Handler.noteValue).Nodup) :
    allCountsNonneg (dispenseChain chain amount).2 = true ∧
      dispensedWithinStock chain
        (dispenseChain chain amount).1.notesDispensed = true := by
  constructor
  · rw [allCountsNonneg, List.all_eq_true]
    intro x hx
    exact decide_eq_true (dispenseChain_counts_nonneg chain amount hc x hx)
  · rw [dispensedWithinStock, List.all_eq_true]
    intro x hx
    exact decide_eq_true (dispenseChain_within_stock chain amount hnd hc x hx)

theorem C8_witness :
    (∀ x ∈ sampleChain, 0 < x.noteValue) ∧
      (∀ x ∈ sampleChain, 0 ≤ x.noteCount) ∧
      (sampleChain.map Handler.noteValue).Nodup ∧
      allCountsNonneg (dispenseChain sampleChain 2700).2 = true ∧
      dispensedWithinStock sampleChain
        (dispenseChain sampleChain 2700).1.notesDispensed = true :=
  ⟨by decide, by decide, by decide,
    (C8_stock_invariant sampleChain 2700 (by decide) (by decide) (by decide)).1,
    (C8_stock_invariant sampleChain 2700 (by decide) (by decide) (by decide)).2⟩

/-- C9: assembling the same handlers (same note values and initial counts)
in ascending denomination order instead of descending yields a different
dispense result for at least one request: for 2700 the descending assembly
succeeds while the ascending one fails. -/
theorem C9_order_sensitivity :
    mainDispense [⟨1000, 10⟩, ⟨500, 10⟩, ⟨100, 10⟩] 2700 ≠
      mainDispense [⟨100, 10⟩, ⟨500, 10⟩, ⟨1000, 10⟩] 2700 := by
  decide

/-- C10: for every chain with distinct positive note values, if a top-level
dispense call succeeds then the chain state after the call is the chain
state before it with each handler's stock decreased by exactly the count
recorded for its denomination in the returned mapping (zero if absent); note
values (and the chain structure) are unchanged. -/
theorem C10_success_stock_update (chain : List Handler) (amount : Int)
    (hpos : ∀ x ∈ chain, 0 < x.noteValue)
    (hnd : (chain.map Handler.noteValue).Nodup)
    (hs : (mainDispense chain amount).1.success = true) :
    (mainDispense chain amount).2 =
      stockAfter (mainDispense chain amount).1.notesDispensed chain := by
  simp only [mainDispense] at hs ⊢
  split_ifs at hs ⊢ with hg hcs
  exact dispenseChain_success_state chain amount hnd hcs

theorem C10_witness :
    (mainDispense sampleChain 2700).1.success = true ∧
      (mainDispense sampleChain 2700).2 =
        stockAfter (mainDispense sampleChain 2700).1.notesDispensed
          sampleChain :=
  ⟨by decide,
    C10_success_stock_update sampleChain 2700 (by decide) (by decide)
      (by decide)⟩
